import Mathlib

/-!
A shallow embedding of the Smart Context Selector (the `smart_context_engine`
module of this repository) together with proofs about its selection pipeline.

Modelling conventions:
* JS numbers used for scores, mtimes and similarities are modelled as `ℚ`;
  token counts, budgets and list lengths are `ℕ`.
* The effectful collaborators (the token estimator, `fs.stat`, `Date.now`, the
  embedding provider, the on-disk embedding-cache lookup combined with its
  `stat` guard, the floating-point `cosineSimilarity`, `Math.log` and
  `Number.toFixed`) are uninterpreted parameters collected in an `Env` record;
  every theorem below quantifies over them, so nothing depends on a particular
  stub.
* Strings are processed per character; the ASCII behaviour of
  `String.prototype.toLowerCase` and of the regex classes used by the source is
  modelled directly.
-/

/-- Selection mode (`SmartContextOptions.mode` in the source). -/
inductive Mode where
  | off
  | conservative
  | balanced
deriving DecidableEq, Repr

/-- A scanner file (`CodebaseFile` in the source).  The optional `force` flag
of the source is modelled as a plain `Bool` (`undefined` reads as `false`). -/
structure CodebaseFile where
  path : String
  content : String
  force : Bool
deriving DecidableEq, Repr

/-- A candidate during scoring (`FileCandidate` in the source, which extends
`CodebaseFile` with score, reasons, auto-include flag and token estimate). -/
structure FileCandidate where
  path : String
  content : String
  force : Bool
  score : ℚ
  reasons : List String
  isAutoInclude : Bool
  tokens : ℕ
deriving DecidableEq, Repr

/-- An entry of the debug trace (`debug.topScores` elements). -/
structure TopScore where
  path : String
  score : ℚ
  reason : String
deriving DecidableEq, Repr

/-- The debug block of a `SmartContextResult`. -/
structure DebugInfo where
  totalCandidates : ℕ
  selectedCount : ℕ
  tokenUsage : ℕ
  tokenBudget : ℕ
  scoringMethod : String
  topScores : List TopScore
  autoIncludesCount : ℕ
  excludedCount : ℕ
deriving DecidableEq, Repr

/-- The result of one `select` call (`SmartContextResult` in the source). -/
structure SmartContextResult where
  selectedFiles : List CodebaseFile
  debug : DebugInfo
deriving DecidableEq, Repr

/-- The effectful collaborators of the engine, as uninterpreted functions.

* `est` — `estimateTokens` from `token_utils` (opaque, deterministic).
* `statMtime` — `fs.stat(path.join(appPath, p)).mtimeMs`, `none` when the stat
  fails (the `appPath` prefix is folded into the function).
* `now` — `Date.now()` during the call.
* `embAvailable` — `EmbeddingProvider.isAvailable()` (provider configured).
* `embedText` — `EmbeddingProvider.embed`, `none` when the call throws; it is
  used both for the query and for file contents.
* `cacheGet` — the `fs.stat` + `EmbeddingCache.get` sequence of
  `scoreWithEmbeddings`, keyed by candidate path and content; `none` models a
  stat failure, a cache miss or a stale entry.
* `cos` — the floating-point `cosineSimilarity` (its numeric values are
  irrelevant to every claim proved here, so it stays abstract).
* `lg` — the floating-point `Math.log` used by the TF-IDF IDF formula.
* `fmt2`, `fmt3` — `Number.toFixed(2)` and `Number.toFixed(3)`. -/
structure Env where
  est : String → ℕ
  statMtime : String → Option ℚ
  now : ℚ
  embAvailable : Bool
  embedText : String → Option (List ℚ)
  cacheGet : String → String → Option (List ℚ)
  cos : List ℚ → List ℚ → ℚ
  lg : ℚ → ℚ
  fmt2 : ℚ → String
  fmt3 : ℚ → String

/-- The per-call options of `selectFiles`.  The scanner output
(`extractCodebase`) and the auto-include glob paths of the chat context are
inputs here, matching the provider interfaces the engine consumes. -/
structure SmartContextOptions where
  files : List CodebaseFile
  autoIncludePaths : List String
  userPrompt : String
  recentMessages : List (String × String)
  mode : Mode
  maxTokens : Option ℕ
  tokenBudget : Option ℕ

/-! ## String utilities (ASCII models of the JS string/regex operations) -/

/-- Is `c` an ASCII word character, i.e. in the regex class `w`? -/
def isWordChar (c : Char) : Bool :=
  (('a' ≤ c && c ≤ 'z') || ('A' ≤ c && c ≤ 'Z') || ('0' ≤ c && c ≤ '9') || c == '_')

/-- Is `c` whitespace in the sense of the regex class used by the source? -/
def isSpaceChar (c : Char) : Bool :=
  c == ' ' || c == '\t' || c == '\n' || c == '\r'

/-- Lowercase every character (models `String.prototype.toLowerCase` for the
ASCII texts handled by the engine). -/
def lowerStr (s : String) : String :=
  String.mk (s.toList.map Char.toLower)

/-- Split a character list on whitespace runs, dropping empty pieces.
JS `split` on a whitespace regex can yield one leading empty string, but every
caller in the source filters tokens by a positive minimum length, so dropping
empties directly is observationally identical. -/
def splitWsAux : List Char → List Char → List (List Char)
  | [], acc => if acc = [] then [] else [acc.reverse]
  | c :: cs, acc =>
    if isSpaceChar c then
      if acc = [] then splitWsAux cs [] else acc.reverse :: splitWsAux cs []
    else splitWsAux cs (c :: acc)

/-- Split a string on whitespace runs (see `splitWsAux`). -/
def splitWs (s : String) : List String :=
  (splitWsAux s.toList []).map String.mk

/-- Does `needle` occur as a contiguous substring of the character list?
Models `String.prototype.includes`. -/
def containsSubL (needle : List Char) : List Char → Bool
  | [] => needle.isPrefixOf []
  | c :: t => needle.isPrefixOf (c :: t) || containsSubL needle t

/-- `hay.includes(needle)` of JS. -/
def containsSub (hay needle : String) : Bool :=
  containsSubL needle.toList hay.toList

/-- `path.basename` of node, for the slash-separated workspace-relative paths
the engine handles (no trailing slashes). -/
def basename (p : String) : String :=
  (p.splitOn ("/")).getLastD ""

/-- `path.dirname` of node, same conventions as `basename`. -/
def dirname (p : String) : String :=
  let parts := p.splitOn ("/")
  if parts.length ≤ 1 then "." else String.intercalate ("/") parts.dropLast

/-- `path.extname` of node: the suffix of the basename starting at its last
dot, where a dot at position 0 (dotfiles) does not start an extension. -/
def extname (p : String) : String :=
  match (basename p).toList with
  | [] => ""
  | _ :: rest =>
    if rest.contains '.' then
      String.mk ('.' :: (rest.reverse.takeWhile (fun c => c != '.')).reverse)
    else ""

/-! ## TF-IDF scorer (`TFIDFScorer` in the source) -/

/-- The stopword set of `TFIDFScorer.isStopWord`, transcribed from the source
(the source list repeats four words; a set ignores the repeats). -/
def tfidfStopWords : List String :=
  ["the", "a", "an", "and", "or", "but", "in", "on", "at", "to", "for", "of",
   "with", "by", "from", "up", "about", "into", "through", "during", "before",
   "after", "above", "below", "between", "among", "this", "that", "these",
   "those", "i", "me", "my", "myself", "we", "our", "ours", "ourselves", "you",
   "your", "yours", "yourself", "yourselves", "he", "him", "his", "himself",
   "she", "her", "hers", "herself", "it", "its", "itself", "they", "them",
   "their", "theirs", "themselves", "what", "which", "who", "whom", "am", "is",
   "are", "was", "were", "be", "been", "being", "have", "has", "had", "having",
   "do", "does", "did", "doing", "will", "would", "should", "could", "can",
   "may", "might", "must", "shall"]

/-- `TFIDFScorer.isStopWord`. -/
def isStopWord (w : String) : Bool :=
  tfidfStopWords.contains w

/-- `TFIDFScorer.tokenize`: lowercase, replace every character that is neither
a word character nor whitespace by a space, split on whitespace, keep tokens
with `2 < length < 50`, drop stopwords. -/
def tokenize (text : String) : List String :=
  let replaced := String.mk (text.toList.map (fun c =>
    let lc := c.toLower
    if isWordChar lc || isSpaceChar lc then lc else ' '))
  ((splitWs replaced).filter (fun t => 2 < t.length && t.length < 50)).filter
    (fun t => !isStopWord t)

/-- A tokenized corpus document (`this.documents` entries of the scorer). -/
structure Doc where
  path : String
  tokens : List String
deriving DecidableEq, Repr

/-- The corpus built by the `TFIDFScorer` constructor. -/
def mkDocuments (files : List (String × String)) : List Doc :=
  files.map (fun f => ⟨f.1, tokenize f.2⟩)

/-- Is a term in the corpus vocabulary (some document contains it)? -/
def inVocabulary (docs : List Doc) (t : String) : Bool :=
  docs.any (fun d => d.tokens.contains t)

/-- Number of documents containing the term (`docsWithTerm`). -/
def docFreq (docs : List Doc) (t : String) : ℕ :=
  (docs.filter (fun d => d.tokens.contains t)).length

/-- The IDF lookup `this.idfCache.get(term) || 0`: the cache holds
`lg (totalDocs / (docsWithTerm + 1))` exactly for vocabulary terms, and the
lookup of anything else yields `0`. -/
def idfGet (lg : ℚ → ℚ) (docs : List Doc) (t : String) : ℚ :=
  if inVocabulary docs t then
    lg ((docs.length : ℚ) / ((docFreq docs t : ℚ) + 1))
  else 0

/-- The TF lookup `docTF.get(token) || 0` over `computeTF` of a document:
raw count normalized by document token length (a count of `0` and the `|| 0`
default coincide, and an empty document yields `0` either way). -/
def tfGet (tokens : List String) (t : String) : ℚ :=
  ((tokens.count t : ℚ)) / ((tokens.length : ℚ))

/-- `TFIDFScorer.scoreDocument`: find the document by path (score `0` when it
is absent), tokenize the query, and sum `tf · idf` over the query-token LIST —
note the source iterates over every occurrence, not over distinct tokens. -/
def scoreDocument (lg : ℚ → ℚ) (docs : List Doc) (filePath query : String) : ℚ :=
  match docs.find? (fun d => d.path == filePath) with
  | none => 0
  | some doc =>
    (((tokenize query)).map (fun qt => tfGet doc.tokens qt * idfGet lg docs qt)).sum

/-- Modelled from the spec wording of claim C6: the same score but summed over
the DISTINCT tokens of the query ("a token repeated in the query contributes
only once").  Kept separate from `scoreDocument`, which follows the source. -/
def scoreDocumentDistinct (lg : ℚ → ℚ) (docs : List Doc) (filePath query : String) : ℚ :=
  match docs.find? (fun d => d.path == filePath) with
  | none => 0
  | some doc =>
    ((((tokenize query)).dedup).map (fun qt => tfGet doc.tokens qt * idfGet lg docs qt)).sum

/-! ## Heuristic scorer (`HeuristicScorer` in the source) -/

/-- An additive score adjustment together with its reason trail. -/
structure ScoreDelta where
  score : ℚ
  reasons : List String
deriving DecidableEq, Repr

/-- Append a `ScoreDelta` to a candidate (the `score += x; reasons.push(r)`
idiom of the source). -/
def bump (c : FileCandidate) (d : ScoreDelta) : FileCandidate :=
  { c with score := c.score + d.score, reasons := c.reasons ++ d.reasons }

/-- The query-keyword list of `HeuristicScorer.scoreByPath`: lowercase, replace
characters outside the classes `w` and `s` by a space, split on whitespace,
keep words longer than two characters (duplicates and stopwords are kept). -/
def pathQueryKeywords (queryLower : String) : List String :=
  (splitWs (String.mk (queryLower.toList.map (fun c =>
    if isWordChar c || isSpaceChar c then c else ' ')))).filter
    (fun w => 2 < w.length)

/-- `HeuristicScorer.scoreByPath`. -/
def scoreByPath (filePath query : String) : ScoreDelta :=
  let fileName := lowerStr (basename filePath)
  let dirName := lowerStr (dirname filePath)
  let queryLower := lowerStr query
  let base := (pathQueryKeywords queryLower).foldl (fun (acc : ScoreDelta) k =>
    let acc := if containsSub fileName k then
        ⟨acc.score + 4/5, acc.reasons ++ ["filename contains \"" ++ k ++ "\""]⟩
      else acc
    if containsSub dirName k then
      ⟨acc.score + 2/5, acc.reasons ++ ["directory contains \"" ++ k ++ "\""]⟩
    else acc) ⟨0, []⟩
  let ext := lowerStr (extname filePath)
  let base := if (ext == ".tsx" || ext == ".jsx") && containsSub queryLower ("component") then
      ⟨base.score + 3/5, base.reasons ++ ["React component file"]⟩
    else base
  let base := if (ext == ".ts" || ext == ".js") && containsSub queryLower ("function") then
      ⟨base.score + 2/5, base.reasons ++ ["JavaScript/TypeScript file"]⟩
    else base
  let base := if ext == ".css" && containsSub queryLower ("style") then
      ⟨base.score + 3/5, base.reasons ++ ["CSS file"]⟩
    else base
  let base := if (fileName == "package.json" || fileName == "tsconfig.json" || fileName == ".env")
      && (containsSub queryLower ("config") || containsSub queryLower ("setup")) then
      ⟨base.score + 7/10, base.reasons ++ ["configuration file"]⟩
    else base
  if containsSub fileName ("test") || containsSub fileName ("spec") then
    if containsSub queryLower ("test") then
      ⟨base.score + 1/2, base.reasons ++ ["test file"]⟩
    else
      ⟨base.score - 3/10, base.reasons ++ ["test file (deprioritized)"]⟩
  else base

/-- `HeuristicScorer.scoreByRecency` (`ageDays = (now − mtime) / 86400000`). -/
def scoreByRecency (now mtime : ℚ) : ScoreDelta :=
  let ageDays := (now - mtime) / 86400000
  if ageDays < 1 then ⟨1/2, ["modified today"]⟩
  else if ageDays < 7 then ⟨3/10, ["modified this week"]⟩
  else if ageDays < 30 then ⟨1/10, ["modified this month"]⟩
  else ⟨0, []⟩

/-- `SmartContextEngine.addHeuristicScores`: path delta, then recency (skipped
when the stat fails), then the auto-include boost of `+10`. -/
def addHeuristicScores (env : Env) (query : String) (c : FileCandidate) : FileCandidate :=
  let c := bump c (scoreByPath c.path query)
  let c := match env.statMtime c.path with
    | some m => bump c (scoreByRecency env.now m)
    | none => c
  if c.isAutoInclude then bump c ⟨10, ["auto-include"]⟩ else c

/-! ## Keyword extraction and post-scoring adjustment
(`SmartContextEngine.extractKeywords` and the loop of `scoreCandidates`) -/

/-- The stopword set of `extractKeywords`, transcribed from the source. -/
def keywordStopWords : List String :=
  ["the", "and", "you", "your", "with", "that", "this", "from", "into", "for",
   "not", "but", "are", "was", "were", "have", "has", "had", "will", "would",
   "could", "should", "about", "page", "component", "file", "files", "please",
   "make", "add", "remove", "change", "update", "toggle", "dark", "light",
   "mode", "new", "old", "like", "just", "need", "want", "can", "able"]

/-- The raw token list of `extractKeywords`: lowercase, replace every character
matching the class `[W_]` (non-word or underscore) by a space, split on
whitespace, keep tokens with `3 ≤ length ≤ 40`. -/
def rawKeywordTokens (text : String) : List String :=
  (splitWs (String.mk (text.toList.map (fun c =>
    let lc := c.toLower
    if isWordChar lc && lc != '_' then lc else ' ')))).filter
    (fun t => 3 ≤ t.length && t.length ≤ 40)

/-- The accumulation loop of `extractKeywords`: push each token that is
neither a stopword nor already collected. -/
def dedupKeywords : List String → List String → List String
  | [], out => out
  | t :: rest, out =>
    if !keywordStopWords.contains t && !out.contains t then
      dedupKeywords rest (out ++ [t])
    else dedupKeywords rest out

/-- `SmartContextEngine.extractKeywords` (`out.slice(0, 15)` at the end). -/
def extractKeywords (text : String) : List String :=
  (dedupKeywords (rawKeywordTokens text) []).take 15

/-- The negative-category tokens of the `scoreCandidates` loop. -/
def negativeDirs : List String :=
  ["chart", "charts", "graph", "analytics", "test", "stories", "storybook"]

/-- The theme-related path fragments of the `scoreCandidates` loop. -/
def themePaths : List String :=
  ["theme", "toggle", "globals.css", "tailwind.config", "index.html",
   "app.css", "layout", "ThemeToggle", "toggle-group"]

/-- One iteration of the keyword-based post-scoring loop in
`SmartContextEngine.scoreCandidates`. -/
def kwOne (keywords : List String) (c : FileCandidate) : FileCandidate :=
  let baseName := lowerStr (basename c.path)
  let dir := lowerStr (dirname c.path)
  let text := lowerStr c.content
  let hasKeywordInPath := keywords.any (fun k => containsSub baseName k || containsSub dir k)
  let hasKeywordInContent := keywords.any (fun k => containsSub text k)
  let wantsWatermark := keywords.any (fun k =>
    k == "watermark" || k == "ternary" || k == "made")
  let c := if wantsWatermark &&
      (containsSub baseName ("made-with-ternary") || containsSub baseName ("watermark") ||
        containsSub text ("made with ternary")) then
      bump c ⟨2, ["bonus: watermark-related file"]⟩
    else c
  let wantsThemeToggle := keywords.any (fun k =>
    k == "theme" || k == "toggle" || k == "dark" || k == "light")
  let c := if wantsThemeToggle && themePaths.any (fun p =>
        containsSub baseName (lowerStr p) || containsSub dir (lowerStr p)) then
      bump c ⟨3/2, ["bonus: theme-toggle related path"]⟩
    else c
  let isNegativeDir := negativeDirs.any (fun d => containsSub dir d || containsSub baseName d)
  let mentionedNegative := keywords.any (fun k => negativeDirs.contains k)
  let c := if isNegativeDir && !mentionedNegative && !hasKeywordInPath && !hasKeywordInContent then
      bump c ⟨-5, ["penalty: negative-dir without mention"]⟩
    else c
  if !hasKeywordInPath && !hasKeywordInContent then
    bump c ⟨-(1/2), ["penalty: no keyword hint"]⟩
  else
    bump c ⟨1/2, ["bonus: keyword match"]⟩

/-! ## Base scorers over candidates and the scoring orchestration -/

/-- Stable descending sort by score (`(a, b) => b.score - a.score`; JS sort is
stable, so ties keep input order, as does a stable merge sort with this
comparator). -/
def sortByScoreDesc (l : List FileCandidate) : List FileCandidate :=
  l.mergeSort (fun a b => decide (b.score ≤ a.score))

/-- The per-candidate body of `scoreWithTFIDF`: assign the TF-IDF score,
record the reason, add heuristic boosts. -/
def tfidfOne (env : Env) (docs : List Doc) (query : String) (c : FileCandidate) : FileCandidate :=
  let s := scoreDocument env.lg docs c.path query
  let c := { c with score := s, reasons := c.reasons ++ ["tf-idf score: " ++ env.fmt3 s] }
  addHeuristicScores env query c

/-- `SmartContextEngine.scoreWithTFIDF`: build the scorer over the candidate
corpus, score every candidate, sort descending. -/
def scoreWithTFIDF (env : Env) (query : String) (cands : List FileCandidate) : List FileCandidate :=
  let docs := mkDocuments (cands.map (fun c => (c.path, c.content)))
  sortByScoreDesc (cands.map (tfidfOne env docs query))

/-- Successful-embedding branch of the per-candidate body of
`scoreWithEmbeddings`: assign the cosine similarity, record the reason, add
heuristic boosts. -/
def applyEmbedding (env : Env) (query : String) (qv e : List ℚ) (c : FileCandidate) : FileCandidate :=
  let similarity := env.cos qv e
  let c := { c with
      score := similarity,
      reasons := c.reasons ++ ["embedding similarity: " ++ env.fmt3 similarity] }
  addHeuristicScores env query c

/-- The per-candidate body of `scoreWithEmbeddings`: try the cache (with its
stat guard), else call the embedder; when both fail the loop `continue`s and
the candidate is left completely untouched. -/
def procOne (env : Env) (query : String) (qv : List ℚ) (c : FileCandidate) : FileCandidate :=
  match env.cacheGet c.path c.content with
  | some e => applyEmbedding env query qv e c
  | none =>
    match env.embedText c.content with
    | some e => applyEmbedding env query qv e c
    | none => c

/-- `SmartContextEngine.scoreWithEmbeddings`: embed the query; when that call
throws, fall back to `scoreWithTFIDF` for the whole call; otherwise score each
candidate and sort descending. -/
def scoreWithEmbeddings (env : Env) (query : String) (cands : List FileCandidate) : List FileCandidate :=
  match env.embedText query with
  | none => scoreWithTFIDF env query cands
  | some qv => sortByScoreDesc (cands.map (procOne env query qv))

/-- `SmartContextEngine.buildQuery`: the user prompt, plus the contents of the
last three user-role messages when that joined string is non-empty. -/
def buildQuery (userPrompt : String) (recentMessages : List (String × String)) : String :=
  let userMsgs := (recentMessages.filter (fun m => m.1 == "user")).map (fun m => m.2)
  let recentUserMessages := String.intercalate (" ") (userMsgs.drop (userMsgs.length - 3))
  if recentUserMessages == "" then userPrompt else userPrompt ++ " " ++ recentUserMessages

/-- `SmartContextEngine.scoreCandidates`: pick the base scorer by embedder
availability, apply the keyword adjustments to every candidate, re-sort. -/
def scoreCandidates (env : Env) (userPrompt : String) (recentMessages : List (String × String))
    (cands : List FileCandidate) : List FileCandidate :=
  let query := buildQuery userPrompt recentMessages
  let keywords := extractKeywords query
  let scored := if env.embAvailable then scoreWithEmbeddings env query cands
    else scoreWithTFIDF env query cands
  sortByScoreDesc (scored.map (kwOne keywords))

/-! ## Budgeted selector (`SmartContextEngine.selectWithinBudget`) -/

/-- The mode-dependent file cap (`options.mode === "conservative" ? 8 : 20`). -/
def maxFilesOf (mode : Mode) : ℕ :=
  if mode = Mode.conservative then 8 else 20

/-- The mode-dependent percentile (`0.85` conservative, `0.7` otherwise). -/
def pctOf (mode : Mode) : ℚ :=
  if mode = Mode.conservative then 85/100 else 70/100

/-- The dynamic threshold of `selectWithinBudget`, computed from the
non-auto-include candidates: sort their scores ascending, index with
`max(0, min(len − 1, floor(len · pct)))`, default the cut to `0` for the empty
list (`scores[idx] ?? 0`), and take `max(percentileCut, 0.15)`. -/
def minScoreOf (mode : Mode) (remaining : List FileCandidate) : ℚ :=
  let scores := (remaining.map (fun r => r.score)).mergeSort (fun a b => decide (a ≤ b))
  let idx : ℤ := max 0 (min ((scores.length : ℤ) - 1) ⌊(scores.length : ℚ) * pctOf mode⌋)
  let percentileCut := scores.getD idx.toNat 0
  max percentileCut (15/100)

/-- Modelled from the spec wording of claim C8: `minScore = max(percentileCut,
0.15)` where `percentileCut = scores[clamp(floor(len · pct), 0, len − 1)]` on
the ascending-sorted score list, or `0` when the list is empty.  Kept separate
from `minScoreOf`, which transcribes the source formula. -/
def minScoreSpec (mode : Mode) (remaining : List FileCandidate) : ℚ :=
  let scores := (remaining.map (fun r => r.score)).mergeSort (fun a b => decide (a ≤ b))
  let len := scores.length
  let percentileCut :=
    if len = 0 then 0
    else scores.getD (min (len - 1) (⌊(len : ℚ) * pctOf mode⌋).toNat) 0
  max percentileCut (15/100)

/-- The reason pushed onto a candidate filtered by the threshold. -/
def filteredReason (env : Env) (minScore : ℚ) : String :=
  "filtered: below threshold " ++ env.fmt2 minScore

/-- The selection loop of `selectWithinBudget` over the non-auto-include
candidates.  Returns the selected list, the processed remaining list (the
candidate objects as mutated by the loop: filtered ones carry the appended
reason, and candidates after a `break` are untouched) and the final
`usedTokens` counter. -/
def selLoop (env : Env) (minScore : ℚ) (maxFiles tokenBudget : ℕ) :
    List FileCandidate → List FileCandidate → ℕ →
    List FileCandidate × List FileCandidate × ℕ
  | [], selected, usedTokens => (selected, [], usedTokens)
  | c :: rest, selected, usedTokens =>
    if c.score < minScore then
      let c2 := { c with reasons := c.reasons ++ [filteredReason env minScore] }
      let r := selLoop env minScore maxFiles tokenBudget rest selected usedTokens
      (r.1, c2 :: r.2.1, r.2.2)
    else if maxFiles ≤ selected.length then (selected, c :: rest, usedTokens)
    else if tokenBudget < usedTokens + c.tokens then (selected, c :: rest, usedTokens)
    else
      let r := selLoop env minScore maxFiles tokenBudget rest
        (selected ++ [c]) (usedTokens + c.tokens)
      (r.1, c :: r.2.1, r.2.2)

/-- `SmartContextEngine.selectWithinBudget`: push every auto-include first and
account its tokens, then run the threshold/cap/budget loop over the rest.
The source returns only the selected list; the second and third components
expose the loop's mutations of the remaining candidates and the token
counter, which the source holds in the candidate objects and a local. -/
def selectWithinBudget (env : Env) (cands : List FileCandidate) (tokenBudget : ℕ)
    (mode : Mode) : List FileCandidate × List FileCandidate × ℕ :=
  let autoIncludes := cands.filter (fun c => c.isAutoInclude)
  let usedTokens := (autoIncludes.map (fun c => c.tokens)).sum
  let remaining := cands.filter (fun c => !c.isAutoInclude)
  selLoop env (minScoreOf mode remaining) (maxFilesOf mode) tokenBudget
    remaining autoIncludes usedTokens

/-! ## Engine orchestration (`SmartContextEngine.selectFiles`) -/

/-- `SmartContextEngine.calculateTokenBudget`:
`max((maxTokens || 32000) − 8000, 10000)` (the `|| 32000` fallback also fires
on a reported `0`, matching JS truthiness; the truncated `ℕ` subtraction and
the JS signed subtraction agree after the `max` with `10000`). -/
def calculateTokenBudget (maxTokens : Option ℕ) : ℕ :=
  let mt := match maxTokens with
    | some m => if m = 0 then 32000 else m
    | none => 32000
  max (mt - 8000) 10000

/-- `SmartContextEngine.prepareCandidates`: annotate each scanner file with a
token estimate and the auto-include flag
(`autoIncludePaths.has(file.path) || file.force || false`). -/
def prepareCandidates (env : Env) (files : List CodebaseFile)
    (autoIncludePaths : List String) : List FileCandidate :=
  files.map (fun file =>
    { path := file.path, content := file.content, force := file.force,
      score := 0, reasons := [],
      isAutoInclude := autoIncludePaths.contains file.path || file.force,
      tokens := env.est file.content })

/-- `SmartContextEngine.selectFilesTraditional`: pass the scanner files
through unchanged; the token budget is reported equal to the usage. -/
def selectFilesTraditional (env : Env) (opts : SmartContextOptions) : SmartContextResult :=
  let files := opts.files
  let totalTokens := (files.map (fun f => env.est f.content)).sum
  { selectedFiles := files,
    debug := {
      totalCandidates := files.length,
      selectedCount := files.length,
      tokenUsage := totalTokens,
      tokenBudget := totalTokens,
      scoringMethod := "traditional",
      topScores := [],
      autoIncludesCount := (files.filter (fun f => f.force)).length,
      excludedCount := 0 } }

/-- `SmartContextEngine.selectFiles`: dispatch on the mode, resolve the token
budget (`options.tokenBudget || calculateTokenBudget(...)`, so a supplied `0`
falls through, matching JS truthiness), prepare, score, select, and assemble
the result with its debug block.  `scoringMethod` is computed from
`embeddingProvider.isAvailable()` alone, exactly as in the source. -/
def selectFiles (env : Env) (opts : SmartContextOptions) : SmartContextResult :=
  if opts.mode = Mode.off then selectFilesTraditional env opts
  else
    let tokenBudget := match opts.tokenBudget with
      | some b => if b = 0 then calculateTokenBudget opts.maxTokens else b
      | none => calculateTokenBudget opts.maxTokens
    let candidates := prepareCandidates env opts.files opts.autoIncludePaths
    let scoredCandidates := scoreCandidates env opts.userPrompt opts.recentMessages candidates
    let sel := (selectWithinBudget env scoredCandidates tokenBudget opts.mode).1
    { selectedFiles := sel.map (fun c =>
        { path := c.path, content := c.content, force := c.isAutoInclude }),
      debug := {
        totalCandidates := candidates.length,
        selectedCount := sel.length,
        tokenUsage := (sel.map (fun c => c.tokens)).sum,
        tokenBudget := tokenBudget,
        scoringMethod := if env.embAvailable then "embeddings" else "tf-idf",
        topScores := (sel.take 10).map (fun c =>
          ⟨c.path, c.score, String.intercalate (", ") c.reasons⟩),
        autoIncludesCount := (sel.filter (fun c => c.isAutoInclude)).length,
        excludedCount := candidates.length - sel.length } }

/-! ## Embedding cache (`EmbeddingCache` in the source)

The on-disk store is modelled as an association list from the hex cache key to
the serialized entry; `fs.writeFile` replaces the keyed file, `fs.unlink`
removes it, and the SHA-256 digest is an uninterpreted function of
`path ‖ content` (the source feeds `hash.update(filePath)` then
`hash.update(content)`, i.e. digests the concatenation). -/

/-- A serialized cache entry (`EmbeddingCacheData` in the source). -/
structure EmbeddingCacheData where
  embedding : List ℚ
  hash : String
  mtime : ℚ
deriving DecidableEq, Repr

/-- The cache directory contents: filename stem ↦ parsed entry. -/
abbrev CacheState := List (String × EmbeddingCacheData)

/-- `EmbeddingCache.getCacheKey`: the digest of `filePath ‖ content`. -/
def getCacheKey (hashFn : String → String) (filePath content : String) : String :=
  hashFn (filePath ++ content)

/-- Look a key up in the cache directory. -/
def cacheLookup (st : CacheState) (key : String) : Option EmbeddingCacheData :=
  (st.find? (fun e => e.1 == key)).map (fun e => e.2)

/-- `EmbeddingCache.get`: read the keyed file (miss when absent), return the
vector when the stored mtime matches, otherwise delete the stale entry and
miss.  The returned state is the directory after the call. -/
def cacheGetOp (hashFn : String → String) (st : CacheState) (filePath content : String)
    (mtime : ℚ) : Option (List ℚ) × CacheState :=
  let cacheKey := getCacheKey hashFn filePath content
  match cacheLookup st cacheKey with
  | none => (none, st)
  | some cached =>
    if cached.mtime = mtime then (some cached.embedding, st)
    else (none, st.filter (fun e => e.1 != cacheKey))

/-- `EmbeddingCache.set`: overwrite the keyed file with
`{embedding, hash := cacheKey, mtime}`. -/
def cacheSetOp (hashFn : String → String) (st : CacheState) (filePath content : String)
    (mtime : ℚ) (embedding : List ℚ) : CacheState :=
  let cacheKey := getCacheKey hashFn filePath content
  (cacheKey, ⟨embedding, cacheKey, mtime⟩) :: st.filter (fun e => e.1 != cacheKey)

/-- A cache directory is well formed when every entry's stored `hash` field
equals its filename stem; `cacheSetOp` only ever writes such entries. -/
def cacheWellFormed (st : CacheState) : Prop :=
  ∀ e ∈ st, e.2.hash = e.1

/-! ## Concrete instances used by witnesses and counterexamples -/

/-- A minimal environment: no embedding provider, every stat fails, all
numeric stubs constant. -/
def env0 : Env :=
  { est := fun _ => 1, statMtime := fun _ => none, now := 0,
    embAvailable := false, embedText := fun _ => none,
    cacheGet := fun _ _ => none, cos := fun _ _ => 0, lg := fun _ => 0,
    fmt2 := fun _ => "", fmt3 := fun _ => "" }

/-- Nine scanner files, all carrying the scanner's `force` flag. -/
def filesNineForced : List CodebaseFile :=
  (List.range 9).map (fun i => { path := "a" ++ toString i, content := "x", force := true })

/-- Conservative-mode options whose nine candidates are all auto-includes. -/
def optsNineForced : SmartContextOptions :=
  { files := filesNineForced, autoIncludePaths := [], userPrompt := "zz",
    recentMessages := [], mode := Mode.conservative, maxTokens := none,
    tokenBudget := some 1000 }

/-- An environment whose provider is configured and embeds only the text
`"zz"`; every other embedding call (in particular every document) fails. -/
def envDocFail : Env :=
  { env0 with
    embAvailable := true,
    embedText := fun s => if s == "zz" then some [1] else none }

/-- An auto-include candidate whose document embedding will fail. -/
def candDocFail : FileCandidate :=
  { path := "auto.x", content := "docbody", force := true, score := 0,
    reasons := [], isAutoInclude := true, tokens := 1 }

/-- An environment with a configured provider whose every `embed` call throws
(including the query), forcing the TF-IDF fallback. -/
def envQueryFail : Env :=
  { env0 with embAvailable := true }

/-- Options for exercising the query-embedding failure path. -/
def optsQueryFail : SmartContextOptions :=
  { files := [{ path := "a.ts", content := "x", force := false }],
    autoIncludePaths := [], userPrompt := "q", recentMessages := [],
    mode := Mode.balanced, maxTokens := none, tokenBudget := some 100 }

/-- A stand-in for the floating-point `Math.log` at the single point the
counterexample to claim C6 evaluates it: `ln(1/2) ≈ −0.693` is negative and in
particular non-zero, which is all the counterexample uses. -/
def logStandIn : ℚ → ℚ :=
  fun q => if q = 1/2 then -(7/10) else 0

/-- A high-scoring, budget-busting non-auto-include candidate. -/
def candBigHigh : FileCandidate :=
  { path := "a", content := "", force := false, score := 10, reasons := [],
    isAutoInclude := false, tokens := 100 }

/-- A below-threshold candidate sitting after the budget break. -/
def candSmallLow : FileCandidate :=
  { path := "b", content := "", force := false, score := 0, reasons := [],
    isAutoInclude := false, tokens := 1 }

/-- A single auto-include candidate for witness instantiations. -/
def candAutoW : FileCandidate :=
  { path := "w.ts", content := "w", force := true, score := 0, reasons := [],
    isAutoInclude := true, tokens := 5 }

/-- Options holding one forced scanner file, for witness instantiations. -/
def optsAutoW : SmartContextOptions :=
  { files := [{ path := "w.ts", content := "w", force := true }],
    autoIncludePaths := [], userPrompt := "zz", recentMessages := [],
    mode := Mode.balanced, maxTokens := none, tokenBudget := some 50 }

/-- A non-auto-include candidate that passes its own percentile threshold. -/
def candHighW : FileCandidate :=
  { path := "h", content := "", force := false, score := 1, reasons := [],
    isAutoInclude := false, tokens := 1 }

/-! ## Theorems -/

/-- C9: with `mode = off`, `select` returns exactly the scanner's files in
their original order with no scoring; `selectedCount` is the number of scanner
files, `tokenUsage` equals `tokenBudget` and both equal the total estimated
tokens of all files, `scoringMethod` is `"traditional"`, `topScores` is empty
and `excludedCount` is `0`. -/
theorem off_mode_passthrough (env : Env) (files : List CodebaseFile)
    (ai : List String) (up : String) (rm : List (String × String))
    (mt tb : Option ℕ) :
    (selectFiles env ⟨files, ai, up, rm, Mode.off, mt, tb⟩).selectedFiles = files ∧
    (selectFiles env ⟨files, ai, up, rm, Mode.off, mt, tb⟩).debug.selectedCount = files.length ∧
    (selectFiles env ⟨files, ai, up, rm, Mode.off, mt, tb⟩).debug.tokenUsage
      = (files.map (fun f => env.est f.content)).sum ∧
    (selectFiles env ⟨files, ai, up, rm, Mode.off, mt, tb⟩).debug.tokenBudget
      = (selectFiles env ⟨files, ai, up, rm, Mode.off, mt, tb⟩).debug.tokenUsage ∧
    (selectFiles env ⟨files, ai, up, rm, Mode.off, mt, tb⟩).debug.scoringMethod = "traditional" ∧
    (selectFiles env ⟨files, ai, up, rm, Mode.off, mt, tb⟩).debug.topScores = [] ∧
    (selectFiles env ⟨files, ai, up, rm, Mode.off, mt, tb⟩).debug.excludedCount = 0 := by
  refine ⟨?_, ?_, ?_, ?_, ?_, ?_, ?_⟩ <;> rfl

/-- Every character of every piece produced by `splitWsAux` satisfies `P`,
provided the accumulator's characters do and every non-whitespace input
character does. -/
theorem splitWsAux_mem_chars (P : Char → Prop) :
    ∀ (cs acc : List Char), (∀ a ∈ acc, P a) →
      (∀ a ∈ cs, isSpaceChar a = false → P a) →
      ∀ t ∈ splitWsAux cs acc, ∀ ch ∈ t, P ch := by
  intro cs
  induction cs with
  | nil =>
    intro acc hacc _ t ht ch hch
    simp only [splitWsAux] at ht
    split at ht
    · simp at ht
    · simp only [List.mem_singleton] at ht
      subst ht
      exact hacc ch (List.mem_reverse.mp hch)
  | cons c cs ih =>
    intro acc hacc hcs t ht ch hch
    simp only [splitWsAux] at ht
    by_cases hsp : isSpaceChar c = true
    · rw [if_pos hsp] at ht
      by_cases hae : acc = []
      · rw [if_pos hae] at ht
        exact ih [] (by simp) (fun a ha hs => hcs a (List.mem_cons_of_mem _ ha) hs) t ht ch hch
      · rw [if_neg hae] at ht
        rcases List.mem_cons.mp ht with h1 | h2
        · subst h1
          exact hacc ch (List.mem_reverse.mp hch)
        · exact ih [] (by simp) (fun a ha hs => hcs a (List.mem_cons_of_mem _ ha) hs) t h2 ch hch
    · rw [if_neg hsp] at ht
      refine ih (c :: acc) ?_ (fun a ha hs => hcs a (List.mem_cons_of_mem _ ha) hs) t ht ch hch
      intro a ha
      rcases List.mem_cons.mp ha with h1 | h2
      · have hs : isSpaceChar a = false := by
          rw [h1]
          cases hval : isSpaceChar c
          · rfl
          · exact absurd hval hsp
        exact hcs a (List.mem_cons.mpr (Or.inl h1)) hs
      · exact hacc a h2

/-- The lowercased form of a word character other than an underscore lies in
`a..z` or `0..9` (`Char.toLower` never produces an uppercase letter). -/
theorem toLower_word_range (c : Char)
    (h : (isWordChar c.toLower && c.toLower != '_') = true) :
    ('a' ≤ c.toLower ∧ c.toLower ≤ 'z') ∨ ('0' ≤ c.toLower ∧ c.toLower ≤ '9') := by
  have h' := h
  simp only [Bool.and_eq_true] at h'
  obtain ⟨hw, hne⟩ := h'
  by_cases hU : c.toNat ≥ 65 ∧ c.toNat ≤ 90
  · have hd : c.toLower = Char.ofNat (c.toNat + 32) := by
      simp only [Char.toLower, if_pos hU]
    obtain ⟨h1, h2⟩ := hU
    rw [hd]
    left
    generalize c.toNat = n at h1 h2
    interval_cases n <;> exact ⟨by decide, by decide⟩
  · have hd : c.toLower = c := by
      simp only [Char.toLower, if_neg hU]
    rw [hd] at hw hne ⊢
    simp only [isWordChar, Bool.or_eq_true, Bool.and_eq_true, decide_eq_true_eq,
      beq_iff_eq] at hw
    rcases hw with ((⟨ha1, ha2⟩ | ⟨hb1, hb2⟩) | ⟨hc1, hc2⟩) | hud
    · exact Or.inl ⟨ha1, ha2⟩
    · exfalso
      apply hU
      constructor
      · rw [Char.le_def, UInt32.le_def] at hb1
        exact hb1
      · rw [Char.le_def, UInt32.le_def] at hb2
        exact hb2
    · exact Or.inr ⟨hc1, hc2⟩
    · exfalso
      rw [bne_iff_ne] at hne
      exact hne hud

/-- Unfolding lemma: the character list of a packed string. -/
theorem toList_mk_eq (l : List Char) : (String.mk l).toList = l := rfl

/-- The characters of every raw keyword token are lowercase letters or
digits. -/
theorem rawKeywordTokens_chars (text : String) :
    ∀ k ∈ rawKeywordTokens text, ∀ ch ∈ k.toList,
      ('a' ≤ ch ∧ ch ≤ 'z') ∨ ('0' ≤ ch ∧ ch ≤ '9') := by
  intro k hk ch hch
  have hk2 := (List.mem_filter.mp hk).1
  simp only [splitWs, List.mem_map] at hk2
  obtain ⟨l, hl, hkl⟩ := hk2
  have hchl : ch ∈ l := by
    rw [← hkl] at hch
    exact hch
  refine splitWsAux_mem_chars
    (fun ch => ('a' ≤ ch ∧ ch ≤ 'z') ∨ ('0' ≤ ch ∧ ch ≤ '9'))
    _ [] (by simp) ?_ l hl ch hchl
  intro a ha hs
  rw [toList_mk_eq] at ha
  simp only [List.mem_map] at ha
  obtain ⟨c0, _, hc0⟩ := ha
  by_cases hcond : (isWordChar c0.toLower && c0.toLower != '_') = true
  · have ha2 : a = c0.toLower := by
      rw [← hc0]
      simp only [if_pos hcond]
    rw [ha2]
    exact toLower_word_range c0 hcond
  · exfalso
    have ha2 : a = ' ' := by
      rw [← hc0]
      simp only [if_neg hcond]
    rw [ha2] at hs
    simp [isSpaceChar] at hs

/-- Characterization of the accumulation loop of `extractKeywords`: starting
from a duplicate-free accumulator it appends a duplicate-free, stopword-free
selection of the input, in input order. -/
theorem dedupKeywords_spec :
    ∀ (l out : List String), out.Nodup →
      ∃ extra, dedupKeywords l out = out ++ extra ∧ extra.Sublist l ∧
        (out ++ extra).Nodup ∧
        ∀ x ∈ extra, keywordStopWords.contains x = false := by
  intro l
  induction l with
  | nil =>
    intro out hnd
    exact ⟨[], by simp [dedupKeywords], List.Sublist.refl _, by simpa using hnd, by simp⟩
  | cons t rest ih =>
    intro out hnd
    by_cases hcond : (!keywordStopWords.contains t && !out.contains t) = true
    · have hstep : dedupKeywords (t :: rest) out = dedupKeywords rest (out ++ [t]) := by
        simp only [dedupKeywords, if_pos hcond]
      have hparts := hcond
      simp only [Bool.and_eq_true, Bool.not_eq_true'] at hparts
      obtain ⟨hstop, houtc⟩ := hparts
      have hout : t ∉ out := by
        simpa using houtc
      have hnd1 : (out ++ [t]).Nodup := by
        rw [List.nodup_append]
        exact ⟨hnd, List.nodup_singleton t, by simpa using hout⟩
      obtain ⟨extra, heq, hsub, hnd2, hstops⟩ := ih (out ++ [t]) hnd1
      refine ⟨t :: extra, ?_, ?_, ?_, ?_⟩
      · rw [hstep, heq, List.append_assoc]
        rfl
      · exact hsub.cons₂ t
      · simpa using hnd2
      · intro x hx
        rcases List.mem_cons.mp hx with h1 | h2
        · rw [h1]
          exact hstop
        · exact hstops x h2
    · have hstep : dedupKeywords (t :: rest) out = dedupKeywords rest out := by
        simp only [dedupKeywords, if_neg hcond]
      obtain ⟨extra, heq, hsub, hnd2, hstops⟩ := ih out hnd
      exact ⟨extra, by rw [hstep, heq], hsub.cons t, hnd2, hstops⟩

/-- C10: the keyword extractor returns at most fifteen keywords, pairwise
distinct, each of length between 3 and 40, outside its stopword set, made of
lowercase letters and digits only, and listed in the order the underlying
tokens occur in the text (the result is a sublist of the token stream); the
keyword pass of `scoreCandidates` consumes exactly this list. -/
theorem extract_keywords_bounded (text : String) :
    (extractKeywords text).length ≤ 15 ∧
    (extractKeywords text).Nodup ∧
    (extractKeywords text).Sublist (rawKeywordTokens text) ∧
    ∀ k ∈ extractKeywords text,
      3 ≤ k.length ∧ k.length ≤ 40 ∧ keywordStopWords.contains k = false ∧
      ∀ ch ∈ k.toList, ('a' ≤ ch ∧ ch ≤ 'z') ∨ ('0' ≤ ch ∧ ch ≤ '9') := by
  obtain ⟨extra, heq, hsub, hnd, hstops⟩ :=
    dedupKeywords_spec (rawKeywordTokens text) [] List.nodup_nil
  have hext : extractKeywords text = extra.take 15 := by
    simp only [extractKeywords, heq, List.nil_append]
  have hndextra : extra.Nodup := by simpa using hnd
  refine ⟨?_, ?_, ?_, ?_⟩
  · rw [hext]
    exact List.length_take_le _ _
  · rw [hext]
    exact (List.take_sublist _ _).nodup hndextra
  · rw [hext]
    exact (List.take_sublist _ _).trans hsub
  · intro k hk
    rw [hext] at hk
    have hkextra : k ∈ extra := (List.take_sublist _ _).subset hk
    have hkraw : k ∈ rawKeywordTokens text := hsub.subset hkextra
    have hlen := (List.mem_filter.mp hkraw).2
    simp only [Bool.and_eq_true, decide_eq_true_eq] at hlen
    exact ⟨hlen.1, hlen.2, hstops k hkextra, rawKeywordTokens_chars text k hkraw⟩

/-- Witness for `extract_keywords_bounded` at a concrete text. -/
theorem extract_keywords_bounded_witness :
    (extractKeywords ("Add a dark watermark to the Chart page")).length ≤ 15 :=
  (extract_keywords_bounded ("Add a dark watermark to the Chart page")).1

/-- Unfolding: the selection loop on the empty list. -/
theorem selLoop_nil (env : Env) (m : ℚ) (mf b : ℕ) (sel : List FileCandidate) (u : ℕ) :
    selLoop env m mf b [] sel u = (sel, [], u) := rfl

/-- Unfolding: a below-threshold candidate is annotated and skipped. -/
theorem selLoop_below (env : Env) (m : ℚ) (mf b : ℕ) (c : FileCandidate)
    (rest sel : List FileCandidate) (u : ℕ) (h : c.score < m) :
    selLoop env m mf b (c :: rest) sel u =
      ((selLoop env m mf b rest sel u).1,
       { c with reasons := c.reasons ++ [filteredReason env m] }
         :: (selLoop env m mf b rest sel u).2.1,
       (selLoop env m mf b rest sel u).2.2) := by
  simp [selLoop, h]

/-- Unfolding: the loop stops at the file cap. -/
theorem selLoop_break_cap (env : Env) (m : ℚ) (mf b : ℕ) (c : FileCandidate)
    (rest sel : List FileCandidate) (u : ℕ) (h1 : ¬ c.score < m) (h2 : mf ≤ sel.length) :
    selLoop env m mf b (c :: rest) sel u = (sel, c :: rest, u) := by
  simp [selLoop, h1, h2]

/-- Unfolding: the loop stops when the candidate would bust the budget. -/
theorem selLoop_break_budget (env : Env) (m : ℚ) (mf b : ℕ) (c : FileCandidate)
    (rest sel : List FileCandidate) (u : ℕ) (h1 : ¬ c.score < m)
    (h2 : ¬ mf ≤ sel.length) (h3 : b < u + c.tokens) :
    selLoop env m mf b (c :: rest) sel u = (sel, c :: rest, u) := by
  simp [selLoop, h1, h2, h3]

/-- Unfolding: an admissible candidate is appended and accounted. -/
theorem selLoop_add (env : Env) (m : ℚ) (mf b : ℕ) (c : FileCandidate)
    (rest sel : List FileCandidate) (u : ℕ) (h1 : ¬ c.score < m)
    (h2 : ¬ mf ≤ sel.length) (h3 : ¬ b < u + c.tokens) :
    selLoop env m mf b (c :: rest) sel u =
      ((selLoop env m mf b rest (sel ++ [c]) (u + c.tokens)).1,
       c :: (selLoop env m mf b rest (sel ++ [c]) (u + c.tokens)).2.1,
       (selLoop env m mf b rest (sel ++ [c]) (u + c.tokens)).2.2) := by
  simp [selLoop, h1, h2, h3]

/-- The structural invariant of the selection loop: the result extends the
accumulator by candidates drawn from the input that pass the threshold; the
token counter accounts exactly for the appended candidates and never ends
above the budget unless nothing was appended; the result length never exceeds
the larger of the cap and the accumulator length. -/
theorem selLoop_spec (env : Env) (m : ℚ) (mf b : ℕ) :
    ∀ (l sel : List FileCandidate) (u : ℕ),
      ∃ added,
        (selLoop env m mf b l sel u).1 = sel ++ added ∧
        (∀ x ∈ added, x ∈ l ∧ ¬ x.score < m) ∧
        (selLoop env m mf b l sel u).2.2 = u + (added.map (fun c => c.tokens)).sum ∧
        ((selLoop env m mf b l sel u).2.2 ≤ b ∨ added = []) ∧
        (selLoop env m mf b l sel u).1.length ≤ max mf sel.length := by
  intro l
  induction l with
  | nil =>
    intro sel u
    refine ⟨[], by simp [selLoop_nil], by simp, by simp [selLoop_nil], ?_, ?_⟩
    · right
      rfl
    · simp [selLoop_nil]
  | cons c rest ih =>
    intro sel u
    by_cases h1 : c.score < m
    · obtain ⟨added, hsel, hmem, hu, hb, hlen⟩ := ih sel u
      rw [selLoop_below env m mf b c rest sel u h1]
      refine ⟨added, hsel, ?_, hu, hb, hlen⟩
      intro x hx
      exact ⟨List.mem_cons_of_mem _ (hmem x hx).1, (hmem x hx).2⟩
    · by_cases h2 : mf ≤ sel.length
      · rw [selLoop_break_cap env m mf b c rest sel u h1 h2]
        refine ⟨[], by simp, by simp, by simp, Or.inr rfl, ?_⟩
        exact le_max_right _ _
      · by_cases h3 : b < u + c.tokens
        · rw [selLoop_break_budget env m mf b c rest sel u h1 h2 h3]
          refine ⟨[], by simp, by simp, by simp, Or.inr rfl, ?_⟩
          exact le_max_right _ _
        · obtain ⟨added, hsel, hmem, hu, hb, hlen⟩ := ih (sel ++ [c]) (u + c.tokens)
          rw [selLoop_add env m mf b c rest sel u h1 h2 h3]
          refine ⟨c :: added, ?_, ?_, ?_, ?_, ?_⟩
          · rw [hsel, List.append_assoc]
            rfl
          · intro x hx
            rcases List.mem_cons.mp hx with he | hm
            · exact ⟨by rw [he]; exact List.mem_cons_self c rest, by rw [he]; exact h1⟩
            · exact ⟨List.mem_cons_of_mem _ (hmem x hm).1, (hmem x hm).2⟩
          · rw [hu]
            simp
            ring
          · rcases hb with hle | hnil
            · exact Or.inl hle
            · left
              rw [hu, hnil]
              simp
              omega
          · refine hlen.trans ?_
            have : (sel ++ [c]).length = sel.length + 1 := by simp
            rw [this]
            have hlt : sel.length + 1 ≤ mf := by omega
            omega

/-- The processed-remaining component of the loop: each input candidate maps
to itself, or — only when it is below the threshold — to itself with the
`filtered` reason appended. -/
theorem selLoop_processed (env : Env) (m : ℚ) (mf b : ℕ) :
    ∀ (l sel : List FileCandidate) (u : ℕ),
      List.Forall₂ (fun o f => f = o ∨ (o.score < m ∧
          f = { o with reasons := o.reasons ++ [filteredReason env m] }))
        l (selLoop env m mf b l sel u).2.1 := by
  intro l
  induction l with
  | nil =>
    intro sel u
    rw [selLoop_nil]
    exact List.Forall₂.nil
  | cons c rest ih =>
    intro sel u
    by_cases h1 : c.score < m
    · rw [selLoop_below env m mf b c rest sel u h1]
      exact List.Forall₂.cons (Or.inr ⟨h1, rfl⟩) (ih sel u)
    · by_cases h2 : mf ≤ sel.length
      · rw [selLoop_break_cap env m mf b c rest sel u h1 h2]
        exact List.forall₂_same.mpr (fun x _ => Or.inl rfl)
      · by_cases h3 : b < u + c.tokens
        · rw [selLoop_break_budget env m mf b c rest sel u h1 h2 h3]
          exact List.forall₂_same.mpr (fun x _ => Or.inl rfl)
        · rw [selLoop_add env m mf b c rest sel u h1 h2 h3]
          exact List.Forall₂.cons (Or.inl rfl) (ih (sel ++ [c]) (u + c.tokens))

/-- Unfolding: `selectWithinBudget` is the selection loop seeded with the
auto-includes and their token sum. -/
theorem selectWithinBudget_eq (env : Env) (cands : List FileCandidate) (budget : ℕ)
    (mode : Mode) :
    selectWithinBudget env cands budget mode =
      selLoop env (minScoreOf mode (cands.filter (fun c => !c.isAutoInclude)))
        (maxFilesOf mode) budget (cands.filter (fun c => !c.isAutoInclude))
        (cands.filter (fun c => c.isAutoInclude))
        (((cands.filter (fun c => c.isAutoInclude)).map (fun c => c.tokens)).sum) := rfl

/-- C2: the selector's token usage respects the budget: the total tokens of
the selection stay within `tokenBudget` whenever the auto-includes alone fit,
and the tokens of the selected non-auto-include files never exceed
`tokenBudget` minus the tokens of the selected auto-include files (truncated
subtraction: when the auto-includes alone exceed the budget, no
non-auto-include file is selected at all).  `debug.tokenUsage` of `selectFiles`
is exactly the first sum. -/
theorem token_budget_respected (env : Env) (cands : List FileCandidate) (budget : ℕ)
    (mode : Mode) :
    (((((selectWithinBudget env cands budget mode).1.filter
          (fun c => c.isAutoInclude)).map (fun c => c.tokens)).sum ≤ budget) →
      (((selectWithinBudget env cands budget mode).1.map (fun c => c.tokens)).sum ≤ budget)) ∧
    ((((selectWithinBudget env cands budget mode).1.filter
        (fun c => !c.isAutoInclude)).map (fun c => c.tokens)).sum ≤
      budget - ((((selectWithinBudget env cands budget mode).1.filter
        (fun c => c.isAutoInclude)).map (fun c => c.tokens)).sum)) := by
  obtain ⟨added, hsel, hmem, hu, hb, _⟩ :=
    selLoop_spec env (minScoreOf mode (cands.filter (fun c => !c.isAutoInclude)))
      (maxFilesOf mode) budget (cands.filter (fun c => !c.isAutoInclude))
      (cands.filter (fun c => c.isAutoInclude))
      (((cands.filter (fun c => c.isAutoInclude)).map (fun c => c.tokens)).sum)
  have hseleq : (selectWithinBudget env cands budget mode).1 =
      cands.filter (fun c => c.isAutoInclude) ++ added := by
    rw [selectWithinBudget_eq]
    exact hsel
  have haddedN : ∀ x ∈ added, x.isAutoInclude = false := by
    intro x hx
    have hxr := (hmem x hx).1
    have := (List.mem_filter.mp hxr).2
    simpa using this
  have hfA : (selectWithinBudget env cands budget mode).1.filter
      (fun c => c.isAutoInclude) = cands.filter (fun c => c.isAutoInclude) := by
    rw [hseleq, List.filter_append]
    have h1 : (cands.filter (fun c => c.isAutoInclude)).filter
        (fun c => c.isAutoInclude) = cands.filter (fun c => c.isAutoInclude) :=
      List.filter_eq_self.mpr (fun a ha => (List.mem_filter.mp ha).2)
    have h2 : added.filter (fun c => c.isAutoInclude) = [] := by
      rw [List.filter_eq_nil_iff]
      intro a ha
      rw [haddedN a ha]
      simp
    rw [h1, h2, List.append_nil]
  have hfN : (selectWithinBudget env cands budget mode).1.filter
      (fun c => !c.isAutoInclude) = added := by
    rw [hseleq, List.filter_append]
    have h1 : (cands.filter (fun c => c.isAutoInclude)).filter
        (fun c => !c.isAutoInclude) = [] := by
      rw [List.filter_eq_nil_iff]
      intro a ha
      have := (List.mem_filter.mp ha).2
      simp [this]
    have h2 : added.filter (fun c => !c.isAutoInclude) = added :=
      List.filter_eq_self.mpr (fun a ha => by rw [haddedN a ha]; simp)
    rw [h1, h2, List.nil_append]
  have hloopu : (selLoop env (minScoreOf mode (cands.filter (fun c => !c.isAutoInclude)))
      (maxFilesOf mode) budget (cands.filter (fun c => !c.isAutoInclude))
      (cands.filter (fun c => c.isAutoInclude))
      (((cands.filter (fun c => c.isAutoInclude)).map (fun c => c.tokens)).sum)).2.2 =
      (((cands.filter (fun c => c.isAutoInclude)).map (fun c => c.tokens)).sum) +
        ((added.map (fun c => c.tokens)).sum) := hu
  have hsum : ((selectWithinBudget env cands budget mode).1.map (fun c => c.tokens)).sum =
      (((cands.filter (fun c => c.isAutoInclude)).map (fun c => c.tokens)).sum) +
        ((added.map (fun c => c.tokens)).sum) := by
    rw [hseleq]
    simp
  constructor
  · intro hA
    rw [hfA] at hA
    rw [hsum]
    rcases hb with hle | hnil
    · rw [hloopu] at hle
      exact hle
    · rw [hnil]
      simpa using hA
  · rw [hfN, hfA]
    rcases hb with hle | hnil
    · rw [hloopu] at hle
      omega
    · rw [hnil]
      simp

/-- Witness for `token_budget_respected`: with one auto-include of five tokens
and a budget of fifty, the selection stays within budget. -/
theorem token_budget_respected_witness :
    ((selectWithinBudget env0 [candAutoW] 50 Mode.balanced).1.map
      (fun c => c.tokens)).sum ≤ 50 :=
  (token_budget_respected env0 [candAutoW] 50 Mode.balanced).1 (by decide)

/-- C3 (amended): the number of selected files is at most the larger of
`maxFiles(mode)` — 8 conservative, 20 otherwise — and the number of
auto-include candidates; in particular the cap holds whenever the
auto-includes alone do not already exceed it, and once the selection has
reached the cap no further non-auto-include file is added. -/
theorem selected_count_within_cap (env : Env) (cands : List FileCandidate) (budget : ℕ)
    (mode : Mode) :
    (selectWithinBudget env cands budget mode).1.length ≤
      max (maxFilesOf mode) ((cands.filter (fun c => c.isAutoInclude)).length) := by
  obtain ⟨_, _, _, _, _, hlen⟩ :=
    selLoop_spec env (minScoreOf mode (cands.filter (fun c => !c.isAutoInclude)))
      (maxFilesOf mode) budget (cands.filter (fun c => !c.isAutoInclude))
      (cands.filter (fun c => c.isAutoInclude))
      (((cands.filter (fun c => c.isAutoInclude)).map (fun c => c.tokens)).sum)
  rw [selectWithinBudget_eq]
  exact hlen

/-- C3 (counterexample): nine forced scanner files in conservative mode make
`selectedCount = 9`, exceeding `maxFiles(conservative) = 8` — auto-includes
are added unconditionally, so they can overrun the mode cap. -/
theorem mode_cap_exceeded_by_auto_includes :
    (selectFiles env0 optsNineForced).debug.selectedCount = 9 ∧
    ¬ ((selectFiles env0 optsNineForced).debug.selectedCount ≤ maxFilesOf Mode.conservative) := by
  have h9 : (selectFiles env0 optsNineForced).debug.selectedCount = 9 := by
    with_unfolding_all rfl
  refine ⟨h9, ?_⟩
  rw [h9]
  decide

/-- The two spellings of the percentile index agree: the source's
`max(0, min(len − 1, floor(len·pct)))` over `ℤ` equals the clamped natural
index of the spec, with `0` for the empty list (`scores[idx] ?? 0`). -/
theorem percentile_cut_eq (L : List ℚ) (p : ℚ) (hp : 0 ≤ p) :
    L.getD (max 0 (min ((L.length : ℤ) - 1) ⌊(L.length : ℚ) * p⌋)).toNat 0 =
      (if L.length = 0 then 0
       else L.getD (min (L.length - 1) (⌊(L.length : ℚ) * p⌋).toNat) 0) := by
  rcases Nat.eq_zero_or_pos L.length with h0 | hpos
  · rw [if_pos h0]
    have hLnil : L = [] := List.length_eq_zero.mp h0
    subst hLnil
    simp
  · rw [if_neg (Nat.pos_iff_ne_zero.mp hpos)]
    have hfl : 0 ≤ ⌊(L.length : ℚ) * p⌋ :=
      Int.floor_nonneg.mpr (mul_nonneg (by positivity) hp)
    congr 1
    omega

/-- C8 (amended): the selector's threshold is exactly the spec formula
`minScore = max(percentileCut, 0.15)` with
`percentileCut = scores[clamp(floor(len·pct), 0, len − 1)]` over the
ascending-sorted non-auto-include scores (`0` when empty, `pct` 0.85
conservative / 0.70 otherwise); every selected non-auto-include candidate
scores at least `minScore` (so every below-threshold candidate is excluded);
and the loop annotates a candidate with the `filtered: below threshold` reason
only when it is below the threshold — candidates the loop never reaches
because it stopped at the file cap or the token budget are excluded without
receiving the reason. -/
theorem threshold_formula_and_exclusion (env : Env) (cands : List FileCandidate)
    (budget : ℕ) (mode : Mode) :
    minScoreOf mode (cands.filter (fun c => !c.isAutoInclude)) =
      minScoreSpec mode (cands.filter (fun c => !c.isAutoInclude)) ∧
    (∀ c ∈ (selectWithinBudget env cands budget mode).1, c.isAutoInclude = false →
      minScoreOf mode (cands.filter (fun c => !c.isAutoInclude)) ≤ c.score) ∧
    List.Forall₂ (fun o f => f = o ∨
        (o.score < minScoreOf mode (cands.filter (fun c => !c.isAutoInclude)) ∧
          f = { o with reasons := o.reasons ++
            [filteredReason env (minScoreOf mode (cands.filter (fun c => !c.isAutoInclude)))] }))
      (cands.filter (fun c => !c.isAutoInclude))
      (selectWithinBudget env cands budget mode).2.1 := by
  refine ⟨?_, ?_, ?_⟩
  · have hpct : (0 : ℚ) ≤ pctOf mode := by
      unfold pctOf
      split <;> norm_num
    simp only [minScoreOf, minScoreSpec]
    congr 1
    exact percentile_cut_eq _ (pctOf mode) hpct
  · intro c hc hcauto
    obtain ⟨added, hsel, hmem, _, _, _⟩ :=
      selLoop_spec env (minScoreOf mode (cands.filter (fun c => !c.isAutoInclude)))
        (maxFilesOf mode) budget (cands.filter (fun c => !c.isAutoInclude))
        (cands.filter (fun c => c.isAutoInclude))
        (((cands.filter (fun c => c.isAutoInclude)).map (fun c => c.tokens)).sum)
    rw [selectWithinBudget_eq] at hc
    rw [hsel] at hc
    rcases List.mem_append.mp hc with hA | hD
    · have := (List.mem_filter.mp hA).2
      rw [hcauto] at this
      simp at this
    · exact le_of_not_lt (hmem c hD).2
  · rw [selectWithinBudget_eq]
    exact selLoop_processed env _ (maxFilesOf mode) budget _ _ _

/-- Witness for `threshold_formula_and_exclusion`: a single candidate that
meets its own percentile cut is selected and scores at least the threshold. -/
theorem threshold_formula_and_exclusion_witness :
    minScoreOf Mode.balanced ([candHighW].filter (fun c => !c.isAutoInclude))
      ≤ candHighW.score :=
  (threshold_formula_and_exclusion env0 [candHighW] 10 Mode.balanced).2.1 candHighW
    (by with_unfolding_all decide) rfl

/-- C8 (counterexample): with a high-scoring candidate that busts the token
budget followed by a below-threshold candidate, the loop breaks before
reaching the second candidate: it is excluded but its `reasons` stay empty,
so not every below-threshold candidate receives the `filtered` reason. -/
theorem filtered_reason_missing_after_break :
    (selectWithinBudget env0 [candBigHigh, candSmallLow] 50 Mode.conservative).1 = [] ∧
    (selectWithinBudget env0 [candBigHigh, candSmallLow] 50 Mode.conservative).2.1
      = [candBigHigh, candSmallLow] ∧
    candSmallLow.score < minScoreOf Mode.conservative [candBigHigh, candSmallLow] ∧
    candSmallLow.reasons = [] :=
  ⟨by with_unfolding_all rfl, by with_unfolding_all rfl,
   by with_unfolding_all decide, rfl⟩

/-- The keyword adjustment only touches `score` and `reasons`. -/
theorem kwOne_fields (k : List String) (c : FileCandidate) :
    (kwOne k c).path = c.path ∧ (kwOne k c).content = c.content ∧
    (kwOne k c).isAutoInclude = c.isAutoInclude ∧ (kwOne k c).tokens = c.tokens := by
  unfold kwOne bump
  dsimp only
  refine ⟨?_, ?_, ?_, ?_⟩ <;> (repeat' split) <;> rfl

/-- The heuristic pass only touches `score` and `reasons`. -/
theorem addHeuristicScores_fields (env : Env) (q : String) (c : FileCandidate) :
    (addHeuristicScores env q c).path = c.path ∧
    (addHeuristicScores env q c).content = c.content ∧
    (addHeuristicScores env q c).isAutoInclude = c.isAutoInclude ∧
    (addHeuristicScores env q c).tokens = c.tokens := by
  unfold addHeuristicScores bump
  dsimp only
  refine ⟨?_, ?_, ?_, ?_⟩ <;> (repeat' split) <;> rfl

/-- The TF-IDF per-candidate body only touches `score` and `reasons`. -/
theorem tfidfOne_fields (env : Env) (docs : List Doc) (q : String) (c : FileCandidate) :
    (tfidfOne env docs q c).path = c.path ∧
    (tfidfOne env docs q c).content = c.content ∧
    (tfidfOne env docs q c).isAutoInclude = c.isAutoInclude ∧
    (tfidfOne env docs q c).tokens = c.tokens := by
  unfold tfidfOne
  obtain ⟨h1, h2, h3, h4⟩ := addHeuristicScores_fields env q
    { c with score := scoreDocument env.lg docs c.path q,
             reasons := c.reasons ++ ["tf-idf score: " ++ env.fmt3 (scoreDocument env.lg docs c.path q)] }
  exact ⟨h1, h2, h3, h4⟩

/-- The embedding per-candidate body only touches `score` and `reasons`. -/
theorem procOne_fields (env : Env) (q : String) (qv : List ℚ) (c : FileCandidate) :
    (procOne env q qv c).path = c.path ∧
    (procOne env q qv c).content = c.content ∧
    (procOne env q qv c).isAutoInclude = c.isAutoInclude ∧
    (procOne env q qv c).tokens = c.tokens := by
  unfold procOne applyEmbedding
  dsimp only
  refine ⟨?_, ?_, ?_, ?_⟩ <;>
    (repeat' split) <;>
    first
      | rfl
      | exact (addHeuristicScores_fields env q _).1
      | exact (addHeuristicScores_fields env q _).2.1
      | exact (addHeuristicScores_fields env q _).2.2.1
      | exact (addHeuristicScores_fields env q _).2.2.2

/-- TF-IDF scoring keeps every candidate (as a permutation) and preserves its
identity fields. -/
theorem scoreWithTFIDF_preserves (env : Env) (q : String) (cands : List FileCandidate)
    (c : FileCandidate) (hc : c ∈ cands) :
    ∃ d ∈ scoreWithTFIDF env q cands, d.path = c.path ∧ d.content = c.content ∧
      d.isAutoInclude = c.isAutoInclude ∧ d.tokens = c.tokens := by
  refine ⟨tfidfOne env (mkDocuments (cands.map (fun c => (c.path, c.content)))) q c, ?_, ?_⟩
  · unfold scoreWithTFIDF sortByScoreDesc
    rw [List.mem_mergeSort]
    exact List.mem_map_of_mem _ hc
  · exact tfidfOne_fields env _ q c

/-- Embedding scoring (with its query-failure fallback) keeps every candidate
and preserves its identity fields. -/
theorem scoreWithEmbeddings_preserves (env : Env) (q : String) (cands : List FileCandidate)
    (c : FileCandidate) (hc : c ∈ cands) :
    ∃ d ∈ scoreWithEmbeddings env q cands, d.path = c.path ∧ d.content = c.content ∧
      d.isAutoInclude = c.isAutoInclude ∧ d.tokens = c.tokens := by
  unfold scoreWithEmbeddings
  cases hqe : env.embedText q with
  | none => exact scoreWithTFIDF_preserves env q cands c hc
  | some qv =>
    refine ⟨procOne env q qv c, ?_, ?_⟩
    · unfold sortByScoreDesc
      rw [List.mem_mergeSort]
      exact List.mem_map_of_mem _ hc
    · exact procOne_fields env q qv c

/-- The whole scoring pipeline keeps every candidate and preserves its
identity fields (path, content, auto-include flag, token estimate). -/
theorem scoreCandidates_preserves (env : Env) (up : String) (rm : List (String × String))
    (cands : List FileCandidate) (c : FileCandidate) (hc : c ∈ cands) :
    ∃ d ∈ scoreCandidates env up rm cands, d.path = c.path ∧ d.content = c.content ∧
      d.isAutoInclude = c.isAutoInclude ∧ d.tokens = c.tokens := by
  unfold scoreCandidates
  cases hav : env.embAvailable with
  | true =>
    simp only [hav, if_pos]
    obtain ⟨d, hd, h1, h2, h3, h4⟩ :=
      scoreWithEmbeddings_preserves env (buildQuery up rm) cands c hc
    obtain ⟨k1, k2, k3, k4⟩ := kwOne_fields (extractKeywords (buildQuery up rm)) d
    refine ⟨kwOne (extractKeywords (buildQuery up rm)) d, ?_, ?_⟩
    · unfold sortByScoreDesc
      rw [List.mem_mergeSort]
      exact List.mem_map_of_mem _ hd
    · exact ⟨k1.trans h1, k2.trans h2, k3.trans h3, k4.trans h4⟩
  | false =>
    simp only [hav]
    obtain ⟨d, hd, h1, h2, h3, h4⟩ :=
      scoreWithTFIDF_preserves env (buildQuery up rm) cands c hc
    obtain ⟨k1, k2, k3, k4⟩ := kwOne_fields (extractKeywords (buildQuery up rm)) d
    refine ⟨kwOne (extractKeywords (buildQuery up rm)) d, ?_, ?_⟩
    · unfold sortByScoreDesc
      rw [List.mem_mergeSort]
      exact List.mem_map_of_mem _ hd
    · exact ⟨k1.trans h1, k2.trans h2, k3.trans h3, k4.trans h4⟩

/-- Every auto-include candidate is in the selector's output, for any
candidate list, budget and mode. -/
theorem mem_selectWithinBudget_of_auto (env : Env) (cands : List FileCandidate)
    (budget : ℕ) (mode : Mode) (d : FileCandidate) (hd : d ∈ cands)
    (hda : d.isAutoInclude = true) :
    d ∈ (selectWithinBudget env cands budget mode).1 := by
  obtain ⟨added, hsel, _, _, _, _⟩ :=
    selLoop_spec env (minScoreOf mode (cands.filter (fun c => !c.isAutoInclude)))
      (maxFilesOf mode) budget (cands.filter (fun c => !c.isAutoInclude))
      (cands.filter (fun c => c.isAutoInclude))
      (((cands.filter (fun c => c.isAutoInclude)).map (fun c => c.tokens)).sum)
  rw [selectWithinBudget_eq, hsel]
  exact List.mem_append_left _ (List.mem_filter.mpr ⟨hd, hda⟩)

/-- The selected-files list of a non-off `select` call, unfolded. -/
theorem selectFiles_selectedFiles (env : Env) (opts : SmartContextOptions)
    (hmode : opts.mode ≠ Mode.off) :
    (selectFiles env opts).selectedFiles =
      ((selectWithinBudget env
          (scoreCandidates env opts.userPrompt opts.recentMessages
            (prepareCandidates env opts.files opts.autoIncludePaths))
          (match opts.tokenBudget with
            | some b => if b = 0 then calculateTokenBudget opts.maxTokens else b
            | none => calculateTokenBudget opts.maxTokens)
          opts.mode).1).map (fun c =>
        ({ path := c.path, content := c.content, force := c.isAutoInclude } : CodebaseFile)) := by
  unfold selectFiles
  rw [if_neg hmode]

/-- C1: for every input candidate list, token budget and mode (other than
off), every auto-include candidate — a scanner file whose path is in the
auto-include set or whose `force` flag is set — appears in the
`selectedFiles` of the result of `select`, regardless of its score, the score
threshold, the file cap and the token budget. -/
theorem auto_includes_always_selected (env : Env) (opts : SmartContextOptions)
    (hmode : opts.mode ≠ Mode.off) (f : CodebaseFile) (hf : f ∈ opts.files)
    (hauto : (opts.autoIncludePaths.contains f.path || f.force) = true) :
    ∃ g ∈ (selectFiles env opts).selectedFiles,
      g.path = f.path ∧ g.content = f.content ∧ g.force = true := by
  have hc0 : (⟨f.path, f.content, f.force, 0, [],
      opts.autoIncludePaths.contains f.path || f.force,
      env.est f.content⟩ : FileCandidate) ∈
      prepareCandidates env opts.files opts.autoIncludePaths := by
    unfold prepareCandidates
    exact List.mem_map_of_mem _ hf
  obtain ⟨d, hd, hdp, hdc, hda, _⟩ := scoreCandidates_preserves env opts.userPrompt
    opts.recentMessages _ _ hc0
  have hdauto : d.isAutoInclude = true := by
    rw [hda]
    exact hauto
  rw [selectFiles_selectedFiles env opts hmode]
  refine ⟨{ path := d.path, content := d.content, force := d.isAutoInclude }, ?_, ?_⟩
  · exact List.mem_map_of_mem _ (mem_selectWithinBudget_of_auto env _ _ opts.mode d hd hdauto)
  · exact ⟨hdp, hdc, hdauto⟩

/-- Witness for `auto_includes_always_selected`: a forced scanner file shows
up in the selection. -/
theorem auto_includes_always_selected_witness :
    ∃ g ∈ (selectFiles env0 optsAutoW).selectedFiles,
      g.path = "w.ts" ∧ g.content = "w" ∧ g.force = true :=
  auto_includes_always_selected env0 optsAutoW (by decide)
    { path := "w.ts", content := "w", force := true }
    (List.mem_singleton.mpr rfl) (by decide)

/-- C4 (code bug): when an embedding provider is configured but the query
embedding call fails, the whole call falls back to TF-IDF scoring, yet the
result still reports `scoringMethod = "embeddings"`, because `selectFiles`
derives the field from `embeddingProvider.isAvailable()` alone; the claim
(and the spec, e.g. scenario S4) require `"tf-idf"` on this path. -/
theorem scoring_method_misreported_on_query_failure (env : Env) (opts : SmartContextOptions)
    (hmode : opts.mode ≠ Mode.off) (hav : env.embAvailable = true)
    (hqfail : env.embedText (buildQuery opts.userPrompt opts.recentMessages) = none) :
    (selectFiles env opts).debug.scoringMethod = "embeddings" ∧
    scoreWithEmbeddings env (buildQuery opts.userPrompt opts.recentMessages)
        (prepareCandidates env opts.files opts.autoIncludePaths) =
      scoreWithTFIDF env (buildQuery opts.userPrompt opts.recentMessages)
        (prepareCandidates env opts.files opts.autoIncludePaths) := by
  constructor
  · have h1 : (selectFiles env opts).debug.scoringMethod =
        if env.embAvailable then "embeddings" else "tf-idf" := by
      unfold selectFiles
      rw [if_neg hmode]
    rw [h1, hav]
    rfl
  · unfold scoreWithEmbeddings
    rw [hqfail]

/-- Witness for `scoring_method_misreported_on_query_failure` at a concrete
environment whose every `embed` call throws. -/
theorem scoring_method_misreported_on_query_failure_witness :
    (selectFiles envQueryFail optsQueryFail).debug.scoringMethod = "embeddings" ∧
    scoreWithEmbeddings envQueryFail
        (buildQuery optsQueryFail.userPrompt optsQueryFail.recentMessages)
        (prepareCandidates envQueryFail optsQueryFail.files optsQueryFail.autoIncludePaths) =
      scoreWithTFIDF envQueryFail
        (buildQuery optsQueryFail.userPrompt optsQueryFail.recentMessages)
        (prepareCandidates envQueryFail optsQueryFail.files optsQueryFail.autoIncludePaths) :=
  scoring_method_misreported_on_query_failure envQueryFail optsQueryFail
    (by decide) rfl rfl

/-- C5 (amended): when a candidate's embedding call fails after a cache miss,
the loop `continue`s: the candidate is left completely untouched by the
embedding stage — score `0` from the embedding contribution but also NO
heuristic adjustments (path match, extension, recency, auto-include boost) —
while the keyword pass still applies to it, and every other candidate is
still processed (the output has one entry per input). -/
theorem doc_embedding_failure_keyword_only (env : Env) (up : String)
    (rm : List (String × String)) (cands : List FileCandidate) (c : FileCandidate)
    (qv : List ℚ) (hav : env.embAvailable = true)
    (hq : env.embedText (buildQuery up rm) = some qv)
    (hcache : env.cacheGet c.path c.content = none)
    (hfail : env.embedText c.content = none) (hc : c ∈ cands) :
    procOne env (buildQuery up rm) qv c = c ∧
    kwOne (extractKeywords (buildQuery up rm)) c ∈ scoreCandidates env up rm cands ∧
    (scoreCandidates env up rm cands).length = cands.length := by
  have hpo : procOne env (buildQuery up rm) qv c = c := by
    unfold procOne
    rw [hcache, hfail]
  have hemb : scoreWithEmbeddings env (buildQuery up rm) cands =
      sortByScoreDesc (cands.map (procOne env (buildQuery up rm) qv)) := by
    unfold scoreWithEmbeddings
    rw [hq]
  have hsc : scoreCandidates env up rm cands =
      sortByScoreDesc ((sortByScoreDesc (cands.map (procOne env (buildQuery up rm) qv))).map
        (kwOne (extractKeywords (buildQuery up rm)))) := by
    unfold scoreCandidates
    rw [hav]
    simp only [if_true]
    rw [hemb]
  refine ⟨hpo, ?_, ?_⟩
  · rw [hsc]
    unfold sortByScoreDesc
    rw [List.mem_mergeSort]
    refine List.mem_map.mpr ⟨procOne env (buildQuery up rm) qv c, ?_, by rw [hpo]⟩
    rw [List.mem_mergeSort]
    exact List.mem_map_of_mem _ hc
  · rw [hsc]
    unfold sortByScoreDesc
    rw [List.length_mergeSort, List.length_map, List.length_mergeSort, List.length_map]

/-- Witness for `doc_embedding_failure_keyword_only` at a concrete candidate
whose document embedding fails. -/
theorem doc_embedding_failure_keyword_only_witness :
    procOne envDocFail (buildQuery ("zz") []) [1] candDocFail = candDocFail ∧
    kwOne (extractKeywords (buildQuery ("zz") [])) candDocFail ∈
      scoreCandidates envDocFail ("zz") [] [candDocFail] ∧
    (scoreCandidates envDocFail ("zz") [] [candDocFail]).length = [candDocFail].length :=
  doc_embedding_failure_keyword_only envDocFail ("zz") [] [candDocFail] candDocFail [1]
    rfl (by with_unfolding_all rfl) rfl rfl (List.mem_singleton.mpr rfl)

/-- C5 (counterexample): an auto-include candidate whose embedding fails ends
with score `−1/2` (the keyword nudge only) and no `auto-include` reason — the
heuristic adjustments, in particular the `+10` auto-include boost the claim
promises, are skipped, so the final score is not `0 + 10 + (−1/2)`. -/
theorem doc_embedding_failure_skips_heuristics :
    scoreCandidates envDocFail ("zz") [] [candDocFail] =
      [{ candDocFail with
          score := -(1/2), reasons := ["penalty: no keyword hint"] }] ∧
    candDocFail.isAutoInclude = true ∧
    ¬ ((-(1/2) : ℚ) = 0 + 10 + -(1/2)) := by
  refine ⟨by with_unfolding_all rfl, rfl, by norm_num⟩

/-- C6 (amended): the TF-IDF score sums `tf · idf` over every occurrence of a
query token — a repeated query token contributes once per occurrence, not
once — so, grouping occurrences, the score equals the sum over the distinct
query tokens weighted by their multiplicity in the tokenized query; missing
terms still contribute zero and an absent document scores zero. -/
theorem tfidf_score_by_multiplicity (lg : ℚ → ℚ) (docs : List Doc) (p q : String)
    (doc : Doc) (hdoc : docs.find? (fun d => d.path == p) = some doc) :
    scoreDocument lg docs p q =
      ∑ t ∈ (tokenize q).toFinset,
        (((tokenize q).count t : ℚ)) * (tfGet doc.tokens t * idfGet lg docs t) := by
  unfold scoreDocument
  rw [hdoc]
  dsimp only
  rw [Finset.sum_list_map_count]
  refine Finset.sum_congr rfl fun t _ => ?_
  rw [nsmul_eq_mul]

/-- Witness for `tfidf_score_by_multiplicity` on a one-document corpus. -/
theorem tfidf_score_by_multiplicity_witness :
    scoreDocument logStandIn (mkDocuments [("a", "hello hello world")]) ("a") ("hello hello") =
      ∑ t ∈ (tokenize ("hello hello")).toFinset,
        (((tokenize ("hello hello")).count t : ℚ)) *
          (tfGet (tokenize ("hello hello world")) t *
            idfGet logStandIn (mkDocuments [("a", "hello hello world")]) t) :=
  tfidf_score_by_multiplicity logStandIn (mkDocuments [("a", "hello hello world")])
    ("a") ("hello hello") ⟨"a", tokenize ("hello hello world")⟩
    (by with_unfolding_all rfl)

/-- C6 (counterexample): over the corpus `[("a", "hello hello world")]` and
the query `"hello hello"`, the source's score is `2 · tf · idf = −14/15`
while the claim's distinct-token sum is `tf · idf = −7/15` (with the `Math.log`
stand-in taking the non-zero value `−7/10` at `1/2`, matching the sign and
non-vanishing of `ln(1/2)`); the two disagree, refuting the claim that a
repeated query token contributes only once. -/
theorem tfidf_repeated_query_token_counts_twice :
    scoreDocument logStandIn (mkDocuments [("a", "hello hello world")]) ("a") ("hello hello")
      = -(14/15) ∧
    scoreDocumentDistinct logStandIn (mkDocuments [("a", "hello hello world")]) ("a") ("hello hello")
      = -(7/15) ∧
    ¬ (scoreDocument logStandIn (mkDocuments [("a", "hello hello world")]) ("a") ("hello hello") =
       scoreDocumentDistinct logStandIn (mkDocuments [("a", "hello hello world")]) ("a") ("hello hello")) := by
  have h1 : scoreDocument logStandIn (mkDocuments [("a", "hello hello world")]) ("a") ("hello hello")
      = -(14/15) := by
    with_unfolding_all rfl
  have h2 : scoreDocumentDistinct logStandIn (mkDocuments [("a", "hello hello world")]) ("a") ("hello hello")
      = -(7/15) := by
    with_unfolding_all rfl
  refine ⟨h1, h2, ?_⟩
  rw [h1, h2]
  norm_num

/-- Looking up a key in a directory from which it was just unlinked misses. -/
theorem cacheLookup_filter_ne (st : CacheState) (key : String) :
    cacheLookup (st.filter (fun e => e.1 != key)) key = none := by
  unfold cacheLookup
  rw [Option.map_eq_none']
  rw [List.find?_eq_none]
  intro e he
  have := (List.mem_filter.mp he).2
  rw [bne_iff_ne] at this
  simp only [beq_iff_eq]
  exact this

/-- Reading a key right after writing it finds the just-written entry. -/
theorem cacheLookup_set (hashFn : String → String) (st : CacheState) (p c : String)
    (m : ℚ) (v : List ℚ) :
    cacheLookup (cacheSetOp hashFn st p c m v) (getCacheKey hashFn p c) =
      some ⟨v, getCacheKey hashFn p c, m⟩ := by
  unfold cacheSetOp cacheLookup
  rw [List.find?_cons_of_pos _ (by simp)]
  rfl

/-- C7: cache round-trip and freshness.  `set(p,c,m,v)` then `get(p,c,m)`
returns `v`; `get(p,c,m')` with `m' ≠ m` misses and unlinks the entry; over a
well-formed directory (every stored `hash` equals the filename stem, which is
the SHA-256 of `path ‖ content` — the only kind of entry `set` writes), `get`
returns a vector iff the entry stored under `H(p ‖ c)` has that vector, a
matching `mtime`, and `contentHash = H(p ‖ c)`; and `set` preserves
well-formedness. -/
theorem cache_roundtrip_and_freshness (hashFn : String → String) (st : CacheState)
    (p c : String) (m m' : ℚ) (v : List ℚ) (hwf : cacheWellFormed st) (hne : m' ≠ m) :
    (cacheGetOp hashFn (cacheSetOp hashFn st p c m v) p c m).1 = some v ∧
    ((cacheGetOp hashFn (cacheSetOp hashFn st p c m v) p c m').1 = none ∧
      cacheLookup (cacheGetOp hashFn (cacheSetOp hashFn st p c m v) p c m').2
        (getCacheKey hashFn p c) = none) ∧
    ((cacheGetOp hashFn st p c m).1 = some v ↔
      ∃ d, cacheLookup st (getCacheKey hashFn p c) = some d ∧ d.mtime = m ∧
        d.hash = getCacheKey hashFn p c ∧ d.embedding = v) ∧
    cacheWellFormed (cacheSetOp hashFn st p c m v) := by
  refine ⟨?_, ⟨?_, ?_⟩, ?_, ?_⟩
  · unfold cacheGetOp
    dsimp only
    rw [cacheLookup_set]
    simp
  · unfold cacheGetOp
    dsimp only
    rw [cacheLookup_set]
    dsimp only
    rw [if_neg (fun h => hne h.symm)]
  · unfold cacheGetOp
    dsimp only
    rw [cacheLookup_set]
    dsimp only
    rw [if_neg (fun h => hne h.symm)]
    exact cacheLookup_filter_ne _ _
  · unfold cacheGetOp
    dsimp only
    cases hlk : cacheLookup st (getCacheKey hashFn p c) with
    | none =>
      dsimp only
      constructor
      · intro h
        exact absurd h (by simp)
      · rintro ⟨d, hd, _⟩
        exact absurd hd (by simp)
    | some d =>
      dsimp only
      have hdmem : d.hash = getCacheKey hashFn p c := by
        unfold cacheLookup at hlk
        rcases Option.map_eq_some'.mp hlk with ⟨e, he, hed⟩
        have hkey : (e.1 == getCacheKey hashFn p c) = true := by
          have h := List.find?_some he
          simpa using h
        have hmem : e ∈ st := List.mem_of_find?_eq_some he
        rw [← hed, hwf e hmem]
        exact beq_iff_eq.mp hkey
      by_cases hm : d.mtime = m
      · rw [if_pos hm]
        dsimp only
        constructor
        · intro h
          exact ⟨d, rfl, hm, hdmem, Option.some_injective _ h⟩
        · rintro ⟨d', hd', _, _, hv⟩
          have hdd : d' = d := (Option.some_injective _ hd').symm
          rw [← hv, hdd]
      · rw [if_neg hm]
        dsimp only
        constructor
        · intro h
          exact absurd h (by simp)
        · rintro ⟨d', hd', hm', _, _⟩
          have hdd : d' = d := (Option.some_injective _ hd').symm
          rw [hdd] at hm'
          exact absurd hm' hm
  · intro e he
    unfold cacheSetOp at he
    rcases List.mem_cons.mp he with h1 | h2
    · rw [h1]
    · exact hwf e ((List.mem_filter.mp h2).1)

/-- Witness for `cache_roundtrip_and_freshness`: a concrete round trip over
the empty directory with the identity digest stand-in. -/
theorem cache_roundtrip_and_freshness_witness :
    (cacheGetOp (fun s => s) (cacheSetOp (fun s => s) [] ("p") ("c") 1 [5]) ("p") ("c") 1).1
      = some [5] :=
  (cache_roundtrip_and_freshness (fun s => s) [] ("p") ("c") 1 2 [5]
    (fun e he => absurd he (List.not_mem_nil e)) (by norm_num)).1
